import Mathlib

/-!
# Verification of the `snug` border-overlay renderer

Shallow embedding of the core of the `snug` repository (a Wayland
rounded-corner border overlay written in Rust) together with proofs about it.

Conventions used throughout:

* Rust strings are UTF-8 byte sequences; they are embedded as `List ℕ`
  (one entry per byte).  `str::len` is the byte length, and slicing
  `&s[i..j]` panics when `i` or `j` is not a character boundary; a panicking
  computation is embedded as `none`.
* Machine integers (`i32`, `u8`, `u32`) are embedded as `ℤ` / `ℕ`; none of
  the modelled code paths overflow.
* `f32` / `f64` arithmetic is embedded as exact arithmetic over `ℚ`
  (where the result is a small integer quantity and the float rounding error
  provably cannot affect the rounded result) or over `ℝ` (for the
  signed-distance-field pass, the shadow falloff, `sqrt` and `exp`).
* Wayland protocol requests, buffer operations and thread sleeps performed by
  the lifecycle code are embedded as an explicit `Effect` trace; `eprintln`
  diagnostics are I/O only and are not traced.
-/

namespace Snug

/-! ## Byte-level model of colour parsing (`src/colour.rs`, `src/drawing.rs`)

`parse_colour` and `parse_hex_color` slice their input strings at fixed byte
indices.  We model strings as byte lists, `u8::from_str_radix(_, 16)` exactly
(including its acceptance of a leading `'+'`), and the character-boundary
check that Rust performs on every slice: slicing at a non-boundary index
panics, which the model returns as `none`. -/

/-- A UTF-8 continuation byte (`0x80 ..= 0xBF`). -/
def isContByte (b : ℕ) : Bool := 128 ≤ b && b < 192

/-- Rust's `str::is_char_boundary i`: true at the end of the string and at
any index holding a non-continuation byte; false past the end. -/
def isCharBoundary (l : List ℕ) (i : ℕ) : Bool :=
  if i = l.length then true
  else if i < l.length then !(isContByte (l.getD i 0))
  else false

/-- Value of an ASCII hex-digit byte. -/
def hexDigitVal (b : ℕ) : Option ℕ :=
  if 48 ≤ b ∧ b ≤ 57 then some (b - 48)
  else if 97 ≤ b ∧ b ≤ 102 then some (b - 87)
  else if 65 ≤ b ∧ b ≤ 70 then some (b - 55)
  else none

/-- `u8::from_str_radix(s, 16)` on the (at most two byte) slices used by the
colour parsers: an optional leading `'+'`, then at least one hex digit.
(No overflow check is needed: two hex digits are at most 255.) -/
def fromStrRadix16 (l : List ℕ) : Option ℕ :=
  let ds := match l with
    | 43 :: rest => rest
    | _ => l
  if ds = [] then none
  else ds.foldl (fun acc b =>
    match acc, hexDigitVal b with
    | some n, some d => some (16 * n + d)
    | _, _ => none) (some 0)

/-- The slice `&s[i..i+2]`: `none` models the boundary-check panic. -/
def slice2 (l : List ℕ) (i : ℕ) : Option (List ℕ) :=
  if isCharBoundary l i && isCharBoundary l (i + 2) then
    some ((l.drop i).take 2)
  else none

/-- `u8::from_str_radix(&s[i..i+2], 16).unwrap_or(0)` (colour channels). -/
def chan0 (l : List ℕ) (i : ℕ) : Option ℕ :=
  (slice2 l i).map (fun s => (fromStrRadix16 s).getD 0)

/-- `u8::from_str_radix(&s[i..i+2], 16).unwrap_or(255)` (alpha channel). -/
def chan255 (l : List ℕ) (i : ℕ) : Option ℕ :=
  (slice2 l i).map (fun s => (fromStrRadix16 s).getD 255)

/-- `f64::clamp` over exact rationals (for `lo ≤ hi`). -/
def clampQ (x lo hi : ℚ) : ℚ := max lo (min x hi)

/-- `src/colour.rs::parse_colour`.  The opacity override is an exact rational
standing for the `f64`; `(x * 255.0) as u8` truncates toward zero.
A `none` result models a byte-slicing panic (possible on non-ASCII input). -/
def parse_colour (input : List ℕ) (opacity : Option ℚ) : Option (ℕ × ℕ × ℕ × ℕ) :=
  let hex := input.dropWhile (· == 35)
  let rgb : Option (ℕ × ℕ × ℕ) :=
    if 6 ≤ hex.length then
      match chan0 hex 0, chan0 hex 2, chan0 hex 4 with
      | some r, some g, some b => some (r, g, b)
      | _, _, _ => none
    else some (0, 0, 0)
  match rgb with
  | none => none
  | some (r, g, b) =>
    let alpha : Option ℕ :=
      match opacity with
      | some o => some (Int.toNat ⌊clampQ o 0 1 * 255⌋)
      | none => if 8 ≤ hex.length then chan255 hex 6 else some 255
    match alpha with
    | none => none
    | some a => some (r, g, b, a)

/-- `src/drawing.rs::parse_hex_color` (the shadow colour parser). -/
def parse_hex_color (input : List ℕ) : Option (ℕ × ℕ × ℕ) :=
  let hex := input.dropWhile (· == 35)
  if hex.length = 6 then
    match chan0 hex 0, chan0 hex 2, chan0 hex 4 with
    | some r, some g, some b => some (r, g, b)
    | _, _, _ => none
  else some (0, 0, 0)

/-! ## The rasterizer (`src/drawing.rs::draw_snug`)

The buffer is BGRA: the four bytes of a pixel are written as
`[pb, pg, pr, pa]`.  A pixel value is embedded as the `Pixel` structure.
The premultiplication `(r as f32 * (a as f32 / 255.0)).round() as u8` is
embedded over exact rationals: for channel and alpha values `≤ 255` the exact
product is never within `1/510` of a rounding midpoint while the accumulated
`f32` error is below `10⁻⁴`, so exact rounding agrees with the `f32`
computation.  `round` in Mathlib rounds halves up, which coincides with
Rust's round-half-away-from-zero on the non-negative values that occur. -/

/-- One BGRA pixel (four bytes, in buffer order `b, g, r, a`). -/
structure Pixel where
  b : ℕ
  g : ℕ
  r : ℕ
  a : ℕ
deriving DecidableEq, Repr

/-- The fully transparent pixel `[0, 0, 0, 0]`. -/
def Pixel.transparent : Pixel := ⟨0, 0, 0, 0⟩

/-- Byte `c` (0 = B, 1 = G, 2 = R, 3 = A) of a pixel. -/
def Pixel.byte (p : Pixel) (c : ℕ) : ℕ :=
  if c = 0 then p.b else if c = 1 then p.g else if c = 2 then p.r else p.a

/-- The alpha byte of an optional pixel (`0` for the panicking case). -/
def alphaOf : Option Pixel → ℕ
  | some p => p.a
  | none => 0

/-- `(c as f32 * (a as f32 / 255.0)).round() as u8`. -/
def premul_chan (c a : ℕ) : ℕ := (round ((c : ℚ) * ((a : ℚ) / 255))).toNat

/-- The premultiplied background pixel `[pb, pg, pr, pa]` that the background
pass writes into every 4-byte chunk. -/
def premul_pixel (r g b a : ℕ) : Pixel :=
  ⟨premul_chan b a, premul_chan g a, premul_chan r a, a⟩

/-- `src/args.rs::MergedConfig`, with the fields in source order.  `i32`
fields are `ℤ`; the colour strings are byte lists; the `f64` opacity is an
exact rational (it is only consumed by `parse_colour`); the `f64` shadow
opacity and blur are reals (they feed the real-valued shadow pass). -/
structure MergedConfig where
  radius : ℤ
  left : ℤ
  right : ℤ
  top : ℤ
  bottom : ℤ
  color : List ℕ
  opacity : Option ℚ
  shadow_enabled : Option Bool
  shadow_color : Option (List ℕ)
  shadow_opacity : Option ℝ
  shadow_blur : Option ℝ

/-- `f64::clamp` (for `lo ≤ hi`). -/
noncomputable def clampR (x lo hi : ℝ) : ℝ := max lo (min x hi)

/-- `src/drawing.rs::shadow_falloff`. -/
noncomputable def shadow_falloff (distance blur_radius : ℝ) : ℝ :=
  if distance ≤ 0 then 1
  else if blur_radius ≤ distance then 0
  else
    let t := distance / blur_radius
    let smooth := 1 - (3 * t * t - 2 * t * t * t)
    let expFactor := Real.exp (-3 * t)
    clampR (smooth * 0.7 + expFactor * 0.3) 0 1

/-- The pixel radius `shadow_blur` computed by `draw_snug` from the
normalized blur config value (`None` defaults to `0.5`):
`1.0 + (config.clamp(0.0, 1.0) * 14.0)`. -/
noncomputable def shadow_blur_radius (blur : Option ℝ) : ℝ :=
  1 + clampR (blur.getD 0.5) 0 1 * 14

/-- `v.round() as u8` for the `f32` byte conversions of the shadow and
antialiasing writes (saturating toward `[0, 255]`). -/
noncomputable def r2b (v : ℝ) : ℕ := min (round v).toNat 255

/-- The membership test of the degenerate (`radius ≤ 0`) cut-out loops:
`y ∈ top..(height-bottom)` and `x ∈ left..(width-right)`. -/
def in_cut (w h left right top bottom x y : ℤ) : Prop :=
  top ≤ y ∧ y < h - bottom ∧ left ≤ x ∧ x < w - right

instance (w h left right top bottom x y : ℤ) :
    Decidable (in_cut w h left right top bottom x y) := by
  unfold in_cut; infer_instance

/-- One pixel of the degenerate (`radius ≤ 0`) path: the cut rectangle is
zeroed, everything else keeps the background fill. -/
def deg_pixel (w h : ℤ) (bg : Pixel) (left right top bottom : ℤ) (x y : ℤ) : Pixel :=
  if in_cut w h left right top bottom x y then Pixel.transparent else bg

/-- The signed distance `drr = dist - radius` computed by `draw_snug` for the
pixel centre `(x + 0.5, y + 0.5)` against the inner rectangle
`[ix0, ix1] × [iy0, iy1]` (with the defensive `.max` clamps of the source). -/
noncomputable def drr_at (w h : ℤ) (cfg : MergedConfig) (x y : ℤ) : ℝ :=
  let ix0 : ℝ := (cfg.left : ℝ)
  let iy0 : ℝ := (cfg.top : ℝ)
  let ix1 : ℝ := max ((w : ℝ) - (cfg.right : ℝ)) ix0
  let iy1 : ℝ := max ((h : ℝ) - (cfg.bottom : ℝ)) iy0
  let xf : ℝ := (x : ℝ) + 0.5
  let yf : ℝ := (y : ℝ) + 0.5
  let dx : ℝ := if xf < ix0 then ix0 - xf else if xf > ix1 then xf - ix1 else 0
  let dy : ℝ := if yf < iy0 then iy0 - yf else if yf > iy1 then yf - iy1 else 0
  Real.sqrt (dx * dx + dy * dy) - (cfg.radius : ℝ)

/-- The interior (`drr ≤ -1`) write when the shadow is enabled: a direct
premultiplied write of the shadow colour, or full transparency outside the
blur radius / below the `0.001` strength threshold. -/
noncomputable def interior_shadow_pixel (sc : ℕ × ℕ × ℕ)
    (shadowOpacity blur innerDist : ℝ) : Pixel :=
  if innerDist ≤ blur then
    if 0.001 < shadowOpacity * shadow_falloff innerDist blur then
      let sa := min (shadowOpacity * shadow_falloff innerDist blur) 1
      ⟨r2b ((sc.2.2 : ℝ) / 255 * sa * 255), r2b ((sc.2.1 : ℝ) / 255 * sa * 255),
       r2b ((sc.1 : ℝ) / 255 * sa * 255), r2b (sa * 255)⟩
    else Pixel.transparent
  else Pixel.transparent

/-- The antialiased-band write when the shadow is enabled: blend of the
shadow contribution (weight `coverage`) and the border colour contribution
(weight `1 - coverage`). -/
noncomputable def band_shadow_pixel (bg : Pixel) (a : ℕ) (sc : ℕ × ℕ × ℕ)
    (shadowOpacity coverage : ℝ) : Pixel :=
  let sa := min (shadowOpacity * coverage) 1
  let borderFactor := 1 - coverage
  let outAlpha := sa + ((a : ℝ) / 255) * borderFactor
  if 0.001 < outAlpha then
    ⟨r2b (((sc.2.2 : ℝ) / 255 * sa + (bg.b : ℝ) / 255 * borderFactor) * 255),
     r2b (((sc.2.1 : ℝ) / 255 * sa + (bg.g : ℝ) / 255 * borderFactor) * 255),
     r2b (((sc.1 : ℝ) / 255 * sa + (bg.r : ℝ) / 255 * borderFactor) * 255),
     r2b (outAlpha * 255)⟩
  else Pixel.transparent

/-- The antialiased-band write when the shadow branch is not taken:
the original AA blend toward transparency. -/
noncomputable def band_noshadow_pixel (bg : Pixel) (a : ℕ) (drr : ℝ) : Pixel :=
  let coverage := 1 - clampR ((drr + 1) / (2 * 1)) 0 1
  let outAlpha := (1 - coverage) * ((a : ℝ) / 255)
  if outAlpha ≤ 0 then Pixel.transparent
  else
    ⟨r2b ((bg.b : ℝ) * (outAlpha / ((a : ℝ) / 255))),
     r2b ((bg.g : ℝ) * (outAlpha / ((a : ℝ) / 255))),
     r2b ((bg.r : ℝ) * (outAlpha / ((a : ℝ) / 255))),
     r2b (outAlpha * 255)⟩

/-- One pixel of the `radius > 0` pass of `draw_snug` (`aa = 1.0`), with the
shadow colour `sc` already parsed. -/
noncomputable def rounded_pixel (w h : ℤ) (bg : Pixel) (a : ℕ) (cfg : MergedConfig)
    (sc : ℕ × ℕ × ℕ) (x y : ℤ) : Pixel :=
  let drr := drr_at w h cfg x y
  if drr ≤ -1 then
    if cfg.shadow_enabled.getD false then
      interior_shadow_pixel sc (clampR (cfg.shadow_opacity.getD 0.5) 0 1)
        (shadow_blur_radius cfg.shadow_blur) (-drr)
    else Pixel.transparent
  else if drr < 1 then
    if cfg.shadow_enabled.getD false = true ∧
        0.001 < 1 - clampR ((drr + 1) / (2 * 1)) 0 1 then
      band_shadow_pixel bg a sc (clampR (cfg.shadow_opacity.getD 0.5) 0 1)
        (1 - clampR ((drr + 1) / (2 * 1)) 0 1)
    else band_noshadow_pixel bg a drr
  else bg

/-- The default shadow colour string `"000000"` (`unwrap_or` in the source). -/
def hexZero6 : List ℕ := [48, 48, 48, 48, 48, 48]

/-- The final value of the pixel `(x, y)` after `draw_snug` runs: the
background pass writes `premul_pixel` everywhere, then the degenerate or the
distance-field pass overwrites.  `none` models the panic of the shadow-colour
byte slicing (reachable only when `radius > 0`, since the degenerate path
returns before the shadow colour is parsed). -/
noncomputable def draw_snug_pixel (w h : ℤ) (r g b a : ℕ) (cfg : MergedConfig)
    (x y : ℤ) : Option Pixel :=
  if cfg.radius ≤ 0 then
    some (deg_pixel w h (premul_pixel r g b a) cfg.left cfg.right cfg.top cfg.bottom x y)
  else
    match parse_hex_color (cfg.shadow_color.getD hexZero6) with
    | none => none
    | some sc => some (rounded_pixel w h (premul_pixel r g b a) a cfg sc x y)

/-- `List.mapM` over `Option`, written out structurally. -/
def mapOpt {α β : Type} (f : α → Option β) : List α → Option (List β)
  | [] => some []
  | x :: l =>
    match f x, mapOpt f l with
    | some y, some ys => some (y :: ys)
    | _, _ => none

/-- `draw_snug` at the buffer level.  Byte `i` of the canvas belongs to pixel
`i / 4` (so `x = (i/4) % width`, `y = (i/4) / width`) and channel `i % 4`;
when the canvas length is exactly `width*height*4` (the caller's invariant)
every byte is determined by `draw_snug_pixel` alone, because the background
pass covers every complete 4-byte chunk. -/
noncomputable def draw_snug (canvas : List ℕ) (width height : ℤ) (r g b a : ℕ)
    (config : MergedConfig) : Option (List ℕ) :=
  mapOpt (fun i =>
      (draw_snug_pixel width height r g b a config
          (((i / 4 : ℕ) : ℤ) % width) (((i / 4 : ℕ) : ℤ) / width)).map
        (fun px => px.byte (i % 4)))
    (List.range canvas.length)

/-! ## The surface-lifecycle state machine
(`src/app.rs`, `src/handlers.rs`, `src/event_loop.rs`)

`App`'s lifecycle-relevant fields are embedded as `AppState`; the Wayland
objects `SlotPool` and `LayerSurface` are identified by `ℕ` tokens, and
`wl_output`s by an id plus resolved name.  Every Wayland request, buffer
operation and `thread::sleep` becomes an `Effect` in an explicit trace.
Results of fallible or external operations (`SlotPool::new`,
`create_buffer`, `Region::new`, configure events delivered during
`wait_for_configure`) are passed in as explicit arguments.  The `Instant`
bookkeeping (`resume_time`, `last_draw_time`) drives only the timed
post-resume refresh block and is not part of the model; the 100 ms spacing
of the resume burst is visible as `sleepMs 100` effects. -/

/-- A registry output: opaque protocol id plus resolved name. -/
structure OutputH where
  id : ℕ
  name : String
deriving DecidableEq, Repr

/-- The lifecycle-relevant fields of `src/app.rs::App`. -/
structure AppState where
  pool : Option ℕ
  layer : Option ℕ
  width : ℤ
  height : ℤ
  boundOutput : Option OutputH
  targetName : String
  needsRecreation : Bool
deriving DecidableEq, Repr

/-- Observable actions of the lifecycle code, in program order. -/
inductive Effect where
  | setAnchorAll : Effect
  | setMargin (t r b l : ℤ) : Effect
  | setExclusiveZone (z : ℤ) : Effect
  | setKeyboardNone : Effect
  | commit : Effect
  | createSurface : Effect
  | createLayerSurface (id : ℕ) : Effect
  | createBuffer (w h : ℤ) : Effect
  | setInputRegion : Effect
  | attach : Effect
  | damage (w h : ℤ) : Effect
  | drawCall : Effect
  | flush : Effect
  | sleepMs (n : ℕ) : Effect
deriving DecidableEq, Repr

/-- The full-screen pin sequence issued by the configure handler and by
`recreate_layer_surface` / `force_layer_recommit`: anchor all four edges,
margin `-1` on all sides, exclusive zone `-1`, commit. -/
def pinCommitEffects : List Effect :=
  [Effect.setAnchorAll, Effect.setMargin (-1) (-1) (-1) (-1),
   Effect.setExclusiveZone (-1), Effect.commit]

/-- `src/app.rs::App::draw`.  `bufAlloc` is the result of
`pool.create_buffer` (`none` = `Err`), `regionOk` that of `Region::new`.
The method never assigns an `App` field, so the state is returned
unchanged. -/
def drawApp (s : AppState) (bufAlloc : Option ℕ) (regionOk : Bool) :
    AppState × List Effect :=
  match s.pool with
  | none => (s, [])
  | some _ =>
    match s.layer with
    | none => (s, [])
    | some _ =>
      if s.width = 0 ∨ s.height = 0 then (s, [])
      else
        match bufAlloc with
        | none => (s, [Effect.createBuffer s.width s.height])
        | some _ =>
          if regionOk then
            (s, [Effect.createBuffer s.width s.height, Effect.setInputRegion,
                 Effect.attach, Effect.damage s.width s.height, Effect.commit])
          else (s, [Effect.createBuffer s.width s.height])

/-- `src/app.rs::App::recreate_layer_surface`.  `poolAlloc` is the result of
`SlotPool::new` (`none` = `Err`), `newLayer` the identity of the freshly
created layer surface.  On allocation failure the function returns early:
the old layer has already been taken and dropped, everything else is left
untouched. -/
def recreate_layer_surface (s : AppState) (output : Option OutputH)
    (poolAlloc : Option ℕ) (newLayer : ℕ) : AppState × List Effect :=
  match poolAlloc with
  | none => ({s with layer := none}, [])
  | some p =>
    ({s with layer := some newLayer, pool := some p, boundOutput := output,
             needsRecreation := false, width := 0, height := 0},
     [Effect.createSurface, Effect.createLayerSurface newLayer,
      Effect.setAnchorAll, Effect.setMargin (-1) (-1) (-1) (-1),
      Effect.setExclusiveZone (-1), Effect.setKeyboardNone, Effect.commit])

/-- `src/handlers.rs::LayerShellHandler::configure`: record the new size,
return early on a zero size, re-issue the pin commit when the previous size
was zero, then redraw (`drawCall` stands for the `self.draw()` call). -/
def configureStep (s : AppState) (w h : ℤ) : AppState × List Effect :=
  let wasZero := s.width = 0 ∨ s.height = 0
  let s1 := {s with width := w, height := h}
  if w = 0 ∨ h = 0 then (s1, [])
  else (s1, (if wasZero then pinCommitEffects else []) ++ [Effect.drawCall])

/-- `src/handlers.rs::OutputHandler::new_output`: bind to a matching output
(exact name match, or any first output for the sentinel target `"default"`)
and request recreation when no layer exists or the output changed. -/
def newOutputStep (s : AppState) (o : OutputH) : AppState :=
  let matchesTarget := s.targetName == "default" || o.name == s.targetName
  if matchesTarget then
    let differentOutput := match s.boundOutput with
      | none => true
      | some b => b.id != o.id
    if s.layer = none ∨ differentOutput = true then
      {s with boundOutput := some o, needsRecreation := true}
    else s
  else s

/-- Loop-local state of `src/event_loop.rs::main_loop` (the `Instant`
bookkeeping is not modelled). -/
structure LoopState where
  app : AppState
  lastW : ℤ
  lastH : ℤ
  wasSuspended : Bool
deriving DecidableEq, Repr

/-- `src/event_loop.rs::force_layer_recommit`: the pin sequence, only when a
layer surface exists. -/
def forceLayerRecommit (s : AppState) : List Effect :=
  match s.layer with
  | some _ => pinCommitEffects
  | none => []

/-- `src/event_loop.rs::wait_for_configure`, with the configure event (if
any) delivered during the blocking dispatches passed in as `cfgArrive`. -/
def waitForConfigure (s : AppState) (cfgArrive : Option (ℤ × ℤ)) :
    AppState × List Effect :=
  match cfgArrive with
  | none => (s, [])
  | some (w, h) => configureStep s w h

/-- The zombie-detection block of `main_loop` (one per 50 ms tick): if the
bound output's id is gone from the registry, clear the layer, the binding
and the dimensions, then search the registry by name and recreate on the
first match. -/
def zombieStep (s : LoopState) (outputs : List OutputH) (poolAlloc : Option ℕ)
    (newLayer : ℕ) (cfgArrive : Option (ℤ × ℤ)) : LoopState × List Effect :=
  match s.app.boundOutput with
  | none => (s, [])
  | some bound =>
    if outputs.any (fun o => o.id == bound.id) then (s, [])
    else
      let a1 := {s.app with layer := none, boundOutput := none,
                            width := 0, height := 0}
      match outputs.find? (fun o => o.name == s.app.targetName) with
      | none => ({s with app := a1}, [])
      | some o =>
        let rec1 := recreate_layer_surface a1 (some o) poolAlloc newLayer
        let wc := waitForConfigure rec1.1 cfgArrive
        ({s with app := wc.1}, rec1.2 ++ wc.2 ++ [Effect.drawCall, Effect.flush])

/-- The `needs_recreation` block of `main_loop` (one per tick). -/
def recreationStep (s : LoopState) (poolAlloc : Option ℕ) (newLayer : ℕ)
    (cfgArrive : Option (ℤ × ℤ)) : LoopState × List Effect :=
  if s.app.needsRecreation then
    match s.app.boundOutput with
    | some o =>
      let rec1 := recreate_layer_surface s.app (some o) poolAlloc newLayer
      let wc := waitForConfigure rec1.1 cfgArrive
      ({s with app := {wc.1 with needsRecreation := false}},
       rec1.2 ++ wc.2 ++ [Effect.drawCall, Effect.flush])
    | none => (s, [])
  else (s, [])

/-- The dimension-change block of `main_loop` (one per tick): a collapse to
zero marks the suspension; a change back from a suspension runs the
recommit-plus-three-redraw resume burst (100 ms apart); any other change is
a plain redraw.  (`resume_time` / `last_draw_time` updates are timing
bookkeeping outside the model.) -/
def dimChangeStep (s : LoopState) : LoopState × List Effect :=
  if s.app.width = s.lastW ∧ s.app.height = s.lastH then (s, [])
  else if s.app.width = 0 ∨ s.app.height = 0 then
    ({s with wasSuspended := true, lastW := s.app.width, lastH := s.app.height}, [])
  else if s.wasSuspended then
    ({s with wasSuspended := false, lastW := s.app.width, lastH := s.app.height},
     forceLayerRecommit s.app ++
       [Effect.sleepMs 100, Effect.drawCall, Effect.flush,
        Effect.sleepMs 100, Effect.drawCall, Effect.flush,
        Effect.sleepMs 100, Effect.drawCall, Effect.flush])
  else
    ({s with lastW := s.app.width, lastH := s.app.height},
     [Effect.drawCall, Effect.flush])

/-! ## Per-display lock files (`src/process.rs`)

The lock file's contents are raw bytes (`List ℕ`), because
`fs::read_to_string` validates UTF-8: on invalid bytes the read fails, the
whole stale-handling block is skipped, and the subsequent
`create_new` open fails with `AlreadyExists` — so a non-UTF-8 lock file
defeats acquisition without any live owner.  `alive pid` is the
`kill(pid, 0)` liveness probe.  `try_acquire_lock` returns `none` on either
failure and `some contents` with the newly written file contents on success
(`writeln!` appends a newline to the decimal pid).  OS-level failures of the
create itself (permissions, races with another process) are outside this
sequential model: after a removal the path is free and creation succeeds. -/

/-- UTF-8 decoding to code points, with exactly the validation
`fs::read_to_string` performs (rejecting overlong forms, surrogates and
code points above `U+10FFFF`); `none` is a failed read. -/
def decodeUtf8 : List ℕ → Option (List ℕ)
  | [] => some []
  | b0 :: rest =>
    if b0 ≤ 127 then (decodeUtf8 rest).map (fun cs => b0 :: cs)
    else
      match rest with
      | [] => none
      | b1 :: rest1 =>
        if 194 ≤ b0 ∧ b0 ≤ 223 then
          if 128 ≤ b1 ∧ b1 ≤ 191 then
            (decodeUtf8 rest1).map (fun cs =>
              ((b0 - 192) * 64 + (b1 - 128)) :: cs)
          else none
        else
          match rest1 with
          | [] => none
          | b2 :: rest2 =>
            if 224 ≤ b0 ∧ b0 ≤ 239 then
              if (if b0 = 224 then 160 ≤ b1 ∧ b1 ≤ 191
                  else if b0 = 237 then 128 ≤ b1 ∧ b1 ≤ 159
                  else 128 ≤ b1 ∧ b1 ≤ 191) ∧ 128 ≤ b2 ∧ b2 ≤ 191 then
                (decodeUtf8 rest2).map (fun cs =>
                  ((b0 - 224) * 4096 + (b1 - 128) * 64 + (b2 - 128)) :: cs)
              else none
            else
              match rest2 with
              | [] => none
              | b3 :: rest3 =>
                if 240 ≤ b0 ∧ b0 ≤ 244 then
                  if (if b0 = 240 then 144 ≤ b1 ∧ b1 ≤ 191
                      else if b0 = 244 then 128 ≤ b1 ∧ b1 ≤ 143
                      else 128 ≤ b1 ∧ b1 ≤ 191) ∧ 128 ≤ b2 ∧ b2 ≤ 191 ∧
                      128 ≤ b3 ∧ b3 ≤ 191 then
                    (decodeUtf8 rest3).map (fun cs =>
                      ((b0 - 240) * 262144 + (b1 - 128) * 4096 +
                        (b2 - 128) * 64 + (b3 - 128)) :: cs)
                  else none
                else none

/-- The Unicode `White_Space` property used by Rust's `char::is_whitespace`
(hence by `str::trim`): U+0009–U+000D, U+0020, U+0085, U+00A0, U+1680,
U+2000–U+200A, U+2028, U+2029, U+202F, U+205F, U+3000. -/
def isWsCp (c : ℕ) : Bool :=
  c == 9 || c == 10 || c == 11 || c == 12 || c == 13 || c == 32 ||
  c == 133 || c == 160 || c == 5760 ||
  c == 8192 || c == 8193 || c == 8194 || c == 8195 || c == 8196 ||
  c == 8197 || c == 8198 || c == 8199 || c == 8200 || c == 8201 ||
  c == 8202 || c == 8232 || c == 8233 || c == 8239 || c == 8287 ||
  c == 12288

/-- `str::trim` over the decoded code points. -/
def trimCps (cs : List ℕ) : List ℕ :=
  ((cs.dropWhile isWsCp).reverse.dropWhile isWsCp).reverse

/-- `str::parse::<u32>`: an optional leading `'+'`, then one or more ASCII
decimal digits, value below `2^32`. -/
def parseU32 (cs : List ℕ) : Option ℕ :=
  let ds := match cs with
    | 43 :: rest => rest
    | _ => cs
  if ds ≠ [] ∧ ds.all (fun c => decide (48 ≤ c ∧ c ≤ 57)) then
    let n := ds.foldl (fun acc c => acc * 10 + (c - 48)) 0
    if n < 2 ^ 32 then some n else none
  else none

/-- The bytes `writeln!(file, "{}", pid)` stores in a fresh lock file. -/
def lockBytes (pid : ℕ) : List ℕ :=
  (Nat.repr pid).data.map (fun c => c.toNat) ++ [10]

/-- `src/process.rs::try_acquire_lock` for one display: `file` is the current
byte contents of `<runtime-dir>/snug-<display>.lock` (`none` if absent).
A live recorded owner makes `try_acquire_lock` return the `AlreadyExists`
error; a dead or unparsable (but UTF-8-readable) owner is removed as stale
and the caller's pid is written; an unreadable (non-UTF-8) file skips the
stale handling and then fails the `create_new`. -/
def try_acquire_lock (file : Option (List ℕ)) (alive : ℕ → Bool)
    (myPid : ℕ) : Option (List ℕ) :=
  match file with
  | some bytes =>
    match decodeUtf8 bytes with
    | some cps =>
      match parseU32 (trimCps cps) with
      | some pid =>
        if alive pid then none
        else some (lockBytes myPid)
      | none => some (lockBytes myPid)
    | none => none
  | none => some (lockBytes myPid)

/-- The lock gate of `src/process.rs::run_child_process`: the worker
proceeds into the event loop iff `LockGuard::new` (i.e. `try_acquire_lock`)
succeeds; otherwise it prints a diagnostic and returns `Ok(())` — a
non-fatal exit. -/
def run_child_proceeds (file : Option (List ℕ)) (alive : ℕ → Bool)
    (myPid : ℕ) : Bool :=
  (try_acquire_lock file alive myPid).isSome

/-- A sample `App` state used by concrete instantiations. -/
def sampleApp : AppState :=
  ⟨some 0, some 1, 64, 64, some ⟨3, "DP-1"⟩, "DP-1", false⟩

/-- A sample rounded config: radius 2, all borders 4, no shadow. -/
def cfgW : MergedConfig := ⟨2, 4, 4, 4, 4, [], none, none, none, none, none⟩

/-- A sample suspended-shape `App` state (zero dimensions). -/
def suspApp : AppState :=
  ⟨some 0, some 1, 0, 0, some ⟨3, "DP-1"⟩, "DP-1", false⟩

/-- The `App` state produced by a successful `recreate_layer_surface`. -/
def recreatedApp (s : AppState) (o : Option OutputH) (p nl : ℕ) : AppState :=
  {s with layer := some nl, pool := some p, boundOutput := o,
          needsRecreation := false, width := 0, height := 0}

/-- The effect trace of a successful `recreate_layer_surface`. -/
def recreateEffects (nl : ℕ) : List Effect :=
  [Effect.createSurface, Effect.createLayerSurface nl, Effect.setAnchorAll,
   Effect.setMargin (-1) (-1) (-1) (-1), Effect.setExclusiveZone (-1),
   Effect.setKeyboardNone, Effect.commit]

/-! ## C9 — the `App::draw` guards -/

/-- C9: whenever the buffer pool is absent, the layer surface is absent, or
either remembered dimension is zero, `App::draw` returns immediately: the
state is unchanged and no buffer is created, nothing is attached and nothing
is committed. -/
theorem c9_draw_guard (s : AppState) (bufAlloc : Option ℕ) (regionOk : Bool)
    (hguard : s.pool = none ∨ s.layer = none ∨ s.width = 0 ∨ s.height = 0) :
    drawApp s bufAlloc regionOk = (s, []) ∧
    (∀ w h, Effect.createBuffer w h ∉ (drawApp s bufAlloc regionOk).2) ∧
    Effect.attach ∉ (drawApp s bufAlloc regionOk).2 ∧
    Effect.commit ∉ (drawApp s bufAlloc regionOk).2 := by
  have key : drawApp s bufAlloc regionOk = (s, []) := by
    rcases hguard with h | h | h | h
    · simp [drawApp, h]
    · rcases hp : s.pool with _ | p <;> simp [drawApp, hp, h]
    · rcases hp : s.pool with _ | p <;> rcases hl : s.layer with _ | l <;>
        simp [drawApp, hp, hl, h]
    · rcases hp : s.pool with _ | p <;> rcases hl : s.layer with _ | l <;>
        simp [drawApp, hp, hl, h]
  refine ⟨key, ?_, ?_, ?_⟩ <;> rw [key] <;> simp

/-- Witness for C9 at a concrete state with `pool = none`. -/
theorem c9_draw_guard_witness :
    drawApp ⟨none, some 1, 64, 64, none, "DP-1", false⟩ (some 5) true =
      (⟨none, some 1, 64, 64, none, "DP-1", false⟩, []) :=
  (c9_draw_guard ⟨none, some 1, 64, 64, none, "DP-1", false⟩ (some 5) true
    (Or.inl rfl)).1

/-! ## C7 — the surface recreation procedure -/

/-- C7: every execution of `recreate_layer_surface` discards the old layer
surface.  On pool-allocation success the pool is replaced by the fresh one
(never the one bound to the destroyed surface), a new full-screen-pinned
layer surface is created on the resolved output, and the remembered
dimensions are reset to `(0, 0)`.  On allocation failure the function
returns with the layer cleared and everything else untouched — a retryable
state — and performs no protocol request at all (in particular it cannot
crash: it is total). -/
theorem c7_recreate (s : AppState) (output : Option OutputH) (p newLayer : ℕ) :
    recreate_layer_surface s output none newLayer = ({s with layer := none}, []) ∧
    recreate_layer_surface s output (some p) newLayer =
      ({s with layer := some newLayer, pool := some p, boundOutput := output,
               needsRecreation := false, width := 0, height := 0},
       [Effect.createSurface, Effect.createLayerSurface newLayer,
        Effect.setAnchorAll, Effect.setMargin (-1) (-1) (-1) (-1),
        Effect.setExclusiveZone (-1), Effect.setKeyboardNone, Effect.commit]) ∧
    (s.pool ≠ some p →
      (recreate_layer_surface s output (some p) newLayer).1.pool ≠ s.pool) := by
  refine ⟨rfl, rfl, ?_⟩
  intro hfresh
  simp only [recreate_layer_surface]
  intro heq
  exact hfresh heq.symm

/-- Witness for C7 at a concrete state, with a fresh pool id. -/
theorem c7_recreate_witness :
    recreate_layer_surface sampleApp none none 9 = ({sampleApp with layer := none}, []) ∧
    (recreate_layer_surface sampleApp none (some 5) 9).1.pool ≠ sampleApp.pool :=
  ⟨(c7_recreate sampleApp none 5 9).1,
   (c7_recreate sampleApp none 5 9).2.2 (by decide)⟩

/-! ## C8 — per-display lock acquisition -/

/-- C8 counterexample: a lock file whose contents are not valid UTF-8 (the
single byte `0xFF`) makes acquisition fail although no live pid is recorded
(here nothing is alive at all): `fs::read_to_string` errs, the
stale-removal branch is skipped, and the exclusive create fails with
`AlreadyExists`.  The claim says acquisition fails exactly when a live pid
is recorded, and that unparsable contents are removed with acquisition
succeeding — both false on this input. -/
theorem c8_counterexample :
    try_acquire_lock (some [255]) (fun _ => false) 12 = none := by decide

/-- C8 (amended): lock acquisition fails (and the worker exits non-fatally
with a diagnostic) exactly when the lock file exists and either records —
as decimal text of its UTF-8 contents, after Unicode-whitespace trimming —
the pid of a live process, or is not valid UTF-8 at all (the read fails,
stale handling is skipped, and the exclusive create fails).  When the
contents are valid UTF-8 but the recorded pid is dead or unparsable,
acquisition removes the stale file and succeeds; every success creates a
new lock file containing the caller's pid as decimal text. -/
theorem c8_amended (file : Option (List ℕ)) (alive : ℕ → Bool) (myPid : ℕ) :
    (try_acquire_lock file alive myPid = none ↔
      ∃ bytes, file = some bytes ∧
        (decodeUtf8 bytes = none ∨
          ∃ cps pid, decodeUtf8 bytes = some cps ∧
            parseU32 (trimCps cps) = some pid ∧ alive pid = true)) ∧
    (∀ out, try_acquire_lock file alive myPid = some out →
      out = lockBytes myPid) ∧
    (run_child_proceeds file alive myPid = false ↔
      try_acquire_lock file alive myPid = none) := by
  refine ⟨?_, ?_, ?_⟩
  · constructor
    · intro hfail
      cases file with
      | none => simp [try_acquire_lock] at hfail
      | some bytes =>
        cases hdec : decodeUtf8 bytes with
        | none => exact ⟨bytes, rfl, Or.inl hdec⟩
        | some cps =>
          cases hp : parseU32 (trimCps cps) with
          | none => simp [try_acquire_lock, hdec, hp] at hfail
          | some pid =>
            cases halive : alive pid with
            | false => simp [try_acquire_lock, hdec, hp, halive] at hfail
            | true => exact ⟨bytes, rfl, Or.inr ⟨cps, pid, hdec, hp, halive⟩⟩
    · rintro ⟨bytes, rfl, hdec | ⟨cps, pid, hdec, hpid, hal⟩⟩
      · simp [try_acquire_lock, hdec]
      · simp [try_acquire_lock, hdec, hpid, hal]
  · intro out hout
    cases file with
    | none => exact (Option.some.inj hout).symm
    | some bytes =>
      cases hdec : decodeUtf8 bytes with
      | none =>
        simp only [try_acquire_lock, hdec] at hout
        exact absurd hout (by simp)
      | some cps =>
        cases hp : parseU32 (trimCps cps) with
        | none =>
          simp only [try_acquire_lock, hdec, hp] at hout
          exact (Option.some.inj hout).symm
        | some pid =>
          cases halive : alive pid with
          | true => simp [try_acquire_lock, hdec, hp, halive] at hout
          | false =>
            simp only [try_acquire_lock, hdec, hp, halive,
              Bool.false_eq_true, if_false] at hout
            exact (Option.some.inj hout).symm
  · rw [run_child_proceeds]
    cases h : try_acquire_lock file alive myPid <;> simp [h]

/-- Witness for C8 (amended): a held lock recording the live pid 42 (bytes
`"42"`) makes acquisition fail. -/
theorem c8_amended_witness :
    try_acquire_lock (some [52, 50]) (fun _ => true) 12 = none :=
  (c8_amended (some [52, 50]) (fun _ => true) 12).1.mpr
    ⟨[52, 50], rfl, Or.inr ⟨[52, 50], 42, by decide, by decide, rfl⟩⟩

/-! ## C5 — suspend on (0,0) configure, resume burst on non-zero configure -/

/-- C5: from an `Active` state (non-zero dimensions matching the last tick,
not suspended), a `(0, 0)` configure followed by the next tick's
dimension-change block always marks the manager suspended, with no redraw.
From a `Suspended` state (suspended flag set, dimensions and last
dimensions `(0, 0)`, layer surface present), a later non-zero configure
followed by the dimension-change block returns the manager to active (flag
cleared) and the block re-issues the full-screen pin commit (anchor all four
edges, margin `-1`, exclusive zone `-1`) followed by exactly 3 redraw
attempts, each preceded by a 100 ms sleep. -/
theorem c5_suspend_resume :
    (∀ s : LoopState, 0 < s.app.width → 0 < s.app.height →
      s.wasSuspended = false → s.lastW = s.app.width → s.lastH = s.app.height →
      (dimChangeStep {s with app := (configureStep s.app 0 0).1}).1.wasSuspended = true ∧
      (dimChangeStep {s with app := (configureStep s.app 0 0).1}).2 = []) ∧
    (∀ (s : LoopState) (w h : ℤ) (l : ℕ), s.wasSuspended = true →
      s.app.width = 0 → s.app.height = 0 → s.lastW = 0 → s.lastH = 0 →
      s.app.layer = some l → 0 < w → 0 < h →
      (dimChangeStep {s with app := (configureStep s.app w h).1}).1.wasSuspended = false ∧
      (dimChangeStep {s with app := (configureStep s.app w h).1}).2 =
        [Effect.setAnchorAll, Effect.setMargin (-1) (-1) (-1) (-1),
         Effect.setExclusiveZone (-1), Effect.commit,
         Effect.sleepMs 100, Effect.drawCall, Effect.flush,
         Effect.sleepMs 100, Effect.drawCall, Effect.flush,
         Effect.sleepMs 100, Effect.drawCall, Effect.flush] ∧
      (dimChangeStep {s with app := (configureStep s.app w h).1}).2.count
          Effect.drawCall = 3) := by
  constructor
  · intro s hw hh hsus hlw hlh
    have hc : (configureStep s.app 0 0).1 = {s.app with width := 0, height := 0} := by
      simp [configureStep]
    rw [hc]
    have h1 : ¬((0 : ℤ) = s.lastW ∧ (0 : ℤ) = s.lastH) := by
      rintro ⟨h0, _⟩; omega
    simp only [dimChangeStep]
    rw [if_neg (by simpa using h1), if_pos (by simp)]
    exact ⟨rfl, rfl⟩
  · intro s w h l hsus hw0 hh0 hlw hlh hlayer hw hh
    have hc : (configureStep s.app w h).1 = {s.app with width := w, height := h} := by
      simp only [configureStep]
      rw [if_neg (by rintro (h' | h') <;> omega)]
    rw [hc]
    have hne : ¬(w = s.lastW ∧ h = s.lastH) := by
      rintro ⟨h1, _⟩; omega
    have hnz : ¬(w = 0 ∨ h = 0) := by rintro (h' | h') <;> omega
    simp only [dimChangeStep]
    rw [if_neg (by simpa using hne), if_neg (by simpa using hnz), if_pos hsus]
    refine ⟨rfl, ?_, ?_⟩
    · simp [forceLayerRecommit, hlayer, pinCommitEffects]
    · simp [forceLayerRecommit, hlayer, pinCommitEffects, List.count_cons]

/-- Witness for C5: a concrete suspended state resumes with the pin commit
and the 3-redraw burst. -/
theorem c5_suspend_resume_witness :
    (dimChangeStep ⟨(configureStep suspApp 1920 1080).1, 0, 0, true⟩).2 =
      [Effect.setAnchorAll, Effect.setMargin (-1) (-1) (-1) (-1),
       Effect.setExclusiveZone (-1), Effect.commit,
       Effect.sleepMs 100, Effect.drawCall, Effect.flush,
       Effect.sleepMs 100, Effect.drawCall, Effect.flush,
       Effect.sleepMs 100, Effect.drawCall, Effect.flush] :=
  (c5_suspend_resume.2 ⟨suspApp, 0, 0, true⟩
    1920 1080 1 rfl rfl rfl rfl rfl rfl (by norm_num) (by norm_num)).2.1

/-! ## C6 — zombie detection and named recovery -/

/-- C6: if the bound output's id is no longer in the registry while a
surface is held, the per-tick zombie block clears the layer surface, the
binding and the dimensions within that tick.  If an output with the target's
name is present in the registry, the same tick recreates a surface on it
(given a successful pool allocation) and the next non-zero configure makes
the manager active again; if the name is absent, the manager stays cleared
(`Zombie`), and an output with the target name appearing later is picked up
by the `new_output` handler, recreated by the recreation block, and made
active by its next non-zero configure. -/
theorem c6_zombie_recovery (s : LoopState) (outputs : List OutputH)
    (bound : OutputH) (pa : Option ℕ) (nl : ℕ) (ca : Option (ℤ × ℤ))
    (hb : s.app.boundOutput = some bound)
    (hgone : ∀ o ∈ outputs, o.id ≠ bound.id) :
    (outputs.find? (fun o => o.name == s.app.targetName) = none →
      zombieStep s outputs pa nl ca =
        ({s with app := {s.app with layer := none, boundOutput := none,
                                    width := 0, height := 0}}, [])) ∧
    (∀ o p, outputs.find? (fun o => o.name == s.app.targetName) = some o →
      pa = some p → ca = none →
      (zombieStep s outputs pa nl ca).1.app.boundOutput = some o ∧
      (zombieStep s outputs pa nl ca).1.app.layer = some nl ∧
      (zombieStep s outputs pa nl ca).1.app.width = 0 ∧
      (zombieStep s outputs pa nl ca).1.app.height = 0 ∧
      (∀ w h : ℤ, 0 < w → 0 < h →
        (configureStep (zombieStep s outputs pa nl ca).1.app w h).1.width = w ∧
        (configureStep (zombieStep s outputs pa nl ca).1.app w h).1.height = h ∧
        (configureStep (zombieStep s outputs pa nl ca).1.app w h).1.layer = some nl)) ∧
    (∀ (z : AppState) (o2 : OutputH) (p : ℕ) (zs : LoopState),
      z.layer = none → z.boundOutput = none → o2.name = z.targetName →
      zs.app = newOutputStep z o2 →
      (newOutputStep z o2).boundOutput = some o2 ∧
      (newOutputStep z o2).needsRecreation = true ∧
      (recreationStep zs (some p) nl none).1.app.layer = some nl ∧
      (recreationStep zs (some p) nl none).1.app.boundOutput = some o2 ∧
      (recreationStep zs (some p) nl none).1.app.width = 0 ∧
      (∀ w h : ℤ, 0 < w → 0 < h →
        (configureStep (recreationStep zs (some p) nl none).1.app w h).1.width = w ∧
        (configureStep (recreationStep zs (some p) nl none).1.app w h).1.height = h ∧
        (configureStep (recreationStep zs (some p) nl none).1.app w h).1.layer =
          some nl)) := by
  have hnotany : outputs.any (fun o => o.id == bound.id) = false := by
    rw [List.any_eq_false]
    intro o ho
    simpa using hgone o ho
  refine ⟨?_, ?_, ?_⟩
  · intro hfind
    simp only [zombieStep, hb, hnotany, hfind]
    simp
  · intro o p hfind hpa hca
    subst hpa; subst hca
    have hz : zombieStep s outputs (some p) nl none =
        ({s with app := recreatedApp s.app (some o) p nl},
         recreateEffects nl ++ [Effect.drawCall, Effect.flush]) := by
      simp only [zombieStep, hb, hnotany, hfind]
      simp [recreate_layer_surface, waitForConfigure, recreatedApp,
        recreateEffects]
    rw [hz]
    refine ⟨rfl, rfl, rfl, rfl, ?_⟩
    intro w h hw hh
    simp only [configureStep]
    rw [if_neg (by rintro (h' | h') <;> omega)]
    exact ⟨rfl, rfl, rfl⟩
  · intro z o2 p zs hzl hzb hname hzs
    have hnew : newOutputStep z o2 =
        {z with boundOutput := some o2, needsRecreation := true} := by
      simp only [newOutputStep]
      rw [if_pos (by simp [hname]), if_pos (Or.inl hzl)]
    have hrec : recreationStep zs (some p) nl none =
        ({zs with app := recreatedApp zs.app (some o2) p nl},
         recreateEffects nl ++ [Effect.drawCall, Effect.flush]) := by
      simp only [recreationStep, hzs, hnew]
      simp [recreate_layer_surface, waitForConfigure, hzs, hnew,
        recreatedApp, recreateEffects]
    rw [hnew, hrec]
    refine ⟨rfl, rfl, rfl, rfl, rfl, ?_⟩
    intro w h hw hh
    simp only [configureStep]
    rw [if_neg (by rintro (h' | h') <;> omega)]
    exact ⟨rfl, rfl, rfl⟩

/-- Witness for C6: a concrete zombie tick where the output is gone and a
same-named output is present leads back to an active surface after a
non-zero configure. -/
theorem c6_zombie_recovery_witness :
    (configureStep (zombieStep ⟨sampleApp, 64, 64, false⟩
        [⟨7, "DP-1"⟩] (some 2) 9 none).1.app 1920 1080).1.layer = some 9 := by
  have h := (c6_zombie_recovery ⟨sampleApp, 64, 64, false⟩
      [⟨7, "DP-1"⟩] ⟨3, "DP-1"⟩ (some 2) 9 none rfl
      (by intro o ho; simp at ho; subst ho; decide)).2.1
    ⟨7, "DP-1"⟩ 2 (by decide) rfl rfl
  exact (h.2.2.2.2 1920 1080 (by norm_num) (by norm_num)).2.2

/-! ## C10 — colour parsing -/

lemma chan0_none_iff (l : List ℕ) (i : ℕ) :
    chan0 l i = none ↔ slice2 l i = none := by
  simp [chan0]

lemma chan255_none_iff (l : List ℕ) (i : ℕ) :
    chan255 l i = none ↔ slice2 l i = none := by
  simp [chan255]

lemma chan0_some_val {l : List ℕ} {i c : ℕ} (h : chan0 l i = some c) :
    c = (fromStrRadix16 ((l.drop i).take 2)).getD 0 := by
  simp only [chan0, slice2] at h
  by_cases hb : (isCharBoundary l i && isCharBoundary l (i + 2)) = true
  · rw [if_pos hb] at h
    simp at h
    exact h.symm
  · rw [if_neg hb] at h
    simp at h

lemma chan255_some_val {l : List ℕ} {i c : ℕ} (h : chan255 l i = some c) :
    c = (fromStrRadix16 ((l.drop i).take 2)).getD 255 := by
  simp only [chan255, slice2] at h
  by_cases hb : (isCharBoundary l i && isCharBoundary l (i + 2)) = true
  · rw [if_pos hb] at h
    simp at h
    exact h.symm
  · rw [if_neg hb] at h
    simp at h

/-- `parse_colour` panics exactly when the trimmed length reaches 6 and one
of the slices it takes fails the boundary check. -/
lemma parse_colour_none_iff (bs : List ℕ) (op : Option ℚ) :
    parse_colour bs op = none ↔
      6 ≤ (bs.dropWhile (· == 35)).length ∧
        (chan0 (bs.dropWhile (· == 35)) 0 = none ∨
         chan0 (bs.dropWhile (· == 35)) 2 = none ∨
         chan0 (bs.dropWhile (· == 35)) 4 = none ∨
         (op = none ∧ 8 ≤ (bs.dropWhile (· == 35)).length ∧
           chan255 (bs.dropWhile (· == 35)) 6 = none)) := by
  simp only [parse_colour]
  by_cases h6 : 6 ≤ (bs.dropWhile (· == 35)).length
  · rw [if_pos h6]
    cases hc0 : chan0 (bs.dropWhile (· == 35)) 0 with
    | none => simp [hc0, h6]
    | some c0 =>
      cases hc2 : chan0 (bs.dropWhile (· == 35)) 2 with
      | none => simp [hc2, h6]
      | some c2 =>
        cases hc4 : chan0 (bs.dropWhile (· == 35)) 4 with
        | none => simp [hc4, h6]
        | some c4 =>
          cases op with
          | some o => simp [h6]
          | none =>
            by_cases h8 : 8 ≤ (bs.dropWhile (· == 35)).length
            · rw [if_pos h8]
              cases hca : chan255 (bs.dropWhile (· == 35)) 6 with
              | none => simp [h6, h8, hca]
              | some ca => simp [h6, h8, hca]
            · rw [if_neg h8]
              simp [h6, h8]
  · rw [if_neg h6]
    cases op with
    | some o => simp [h6]
    | none =>
      rw [if_neg (show ¬8 ≤ (bs.dropWhile (· == 35)).length by omega)]
      simp [h6]

/-- C10 counterexample: colour parsing is not total on arbitrary strings.
On the 7-byte input `"aα0000"` (`0x61 0xCE 0xB1 0x30 0x30 0x30 0x30`,
byte length `7 ≥ 6`) the slice `&hex[0..2]` ends inside the two-byte
character `α`, so `parse_colour` panics (`none` in the model) instead of
returning a colour. -/
theorem c10_counterexample :
    parse_colour [97, 206, 177, 48, 48, 48, 48] none = none := by decide

/-- C10 (amended): for every input string, `parse_colour` panics exactly
when the string (after leading `'#'`s) has at least 6 bytes and one of the
two-byte slices it takes — at offsets 0, 2, 4, and also 6 when no opacity
override is given and at least 8 bytes are present — fails the
character-boundary check; on every other input it returns a colour, mapping
strings with fewer than 6 bytes to `(0, 0, 0)`, any invalid hex pair to 0
for that channel, and the alpha defaulting to 255 (both when absent and
when its pair is invalid); `parse_hex_color` maps any string whose trimmed
length is not exactly 6 — in particular an 8-hex-digit `RRGGBBAA` string —
to black `(0, 0, 0)`. -/
theorem c10_amended (bs : List ℕ) (op : Option ℚ) :
    (parse_colour bs op = none ↔
      6 ≤ (bs.dropWhile (· == 35)).length ∧
        (slice2 (bs.dropWhile (· == 35)) 0 = none ∨
         slice2 (bs.dropWhile (· == 35)) 2 = none ∨
         slice2 (bs.dropWhile (· == 35)) 4 = none ∨
         (op = none ∧ 8 ≤ (bs.dropWhile (· == 35)).length ∧
           slice2 (bs.dropWhile (· == 35)) 6 = none))) ∧
    ((bs.dropWhile (· == 35)).length < 6 →
      ∃ al, parse_colour bs op = some (0, 0, 0, al)) ∧
    (∀ v, parse_colour bs op = some v →
      (6 ≤ (bs.dropWhile (· == 35)).length →
        (fromStrRadix16 (((bs.dropWhile (· == 35)).drop 0).take 2) = none →
          v.1 = 0) ∧
        (fromStrRadix16 (((bs.dropWhile (· == 35)).drop 2).take 2) = none →
          v.2.1 = 0) ∧
        (fromStrRadix16 (((bs.dropWhile (· == 35)).drop 4).take 2) = none →
          v.2.2.1 = 0)) ∧
      (op = none → (bs.dropWhile (· == 35)).length < 8 → v.2.2.2 = 255) ∧
      (op = none → 8 ≤ (bs.dropWhile (· == 35)).length →
        fromStrRadix16 (((bs.dropWhile (· == 35)).drop 6).take 2) = none →
        v.2.2.2 = 255)) ∧
    (∀ cs : List ℕ, (cs.dropWhile (· == 35)).length ≠ 6 →
      parse_hex_color cs = some (0, 0, 0)) := by
  refine ⟨?_, ?_, ?_, ?_⟩
  · rw [parse_colour_none_iff]
    simp only [chan0_none_iff, chan255_none_iff]
  · intro hlen
    simp only [parse_colour]
    rw [if_neg (by omega)]
    cases op with
    | some o => exact ⟨_, rfl⟩
    | none =>
      rw [if_neg (by omega)]
      exact ⟨255, rfl⟩
  · intro v hv
    simp only [parse_colour] at hv
    by_cases h6 : 6 ≤ (bs.dropWhile (· == 35)).length
    · rw [if_pos h6] at hv
      cases hc0 : chan0 (bs.dropWhile (· == 35)) 0 with
      | none => rw [hc0] at hv; simp at hv
      | some c0 =>
        cases hc2 : chan0 (bs.dropWhile (· == 35)) 2 with
        | none => rw [hc0, hc2] at hv; simp at hv
        | some c2 =>
          cases hc4 : chan0 (bs.dropWhile (· == 35)) 4 with
          | none => rw [hc0, hc2, hc4] at hv; simp at hv
          | some c4 =>
            rw [hc0, hc2, hc4] at hv
            cases op with
            | some o =>
              simp only [Option.some.injEq] at hv
              subst hv
              refine ⟨?_, ?_, ?_⟩
              · intro _
                refine ⟨?_, ?_, ?_⟩
                · intro hnone; rw [chan0_some_val hc0, hnone]; rfl
                · intro hnone; rw [chan0_some_val hc2, hnone]; rfl
                · intro hnone; rw [chan0_some_val hc4, hnone]; rfl
              · intro hop
                exact absurd hop (by simp)
              · intro hop
                exact absurd hop (by simp)
            | none =>
              by_cases h8 : 8 ≤ (bs.dropWhile (· == 35)).length
              · rw [if_pos h8] at hv
                cases hca : chan255 (bs.dropWhile (· == 35)) 6 with
                | none => rw [hca] at hv; simp at hv
                | some ca =>
                  rw [hca] at hv
                  simp only [Option.some.injEq] at hv
                  subst hv
                  refine ⟨?_, ?_, ?_⟩
                  · intro _
                    refine ⟨?_, ?_, ?_⟩
                    · intro hnone; rw [chan0_some_val hc0, hnone]; rfl
                    · intro hnone; rw [chan0_some_val hc2, hnone]; rfl
                    · intro hnone; rw [chan0_some_val hc4, hnone]; rfl
                  · intro _ h8'
                    omega
                  · intro _ _ hnone
                    rw [chan255_some_val hca, hnone]
                    rfl
              · rw [if_neg h8] at hv
                simp only [Option.some.injEq] at hv
                subst hv
                refine ⟨?_, ?_, ?_⟩
                · intro _
                  refine ⟨?_, ?_, ?_⟩
                  · intro hnone; rw [chan0_some_val hc0, hnone]; rfl
                  · intro hnone; rw [chan0_some_val hc2, hnone]; rfl
                  · intro hnone; rw [chan0_some_val hc4, hnone]; rfl
                · intro _ _
                  rfl
                · intro _ h8'
                  omega
    · rw [if_neg h6] at hv
      cases op with
      | some o =>
        simp only [Option.some.injEq] at hv
        subst hv
        refine ⟨fun h6' => absurd h6' h6, ?_, ?_⟩
        · intro hop
          exact absurd hop (by simp)
        · intro hop
          exact absurd hop (by simp)
      | none =>
        rw [if_neg (by omega)] at hv
        simp only [Option.some.injEq] at hv
        subst hv
        refine ⟨fun h6' => absurd h6' h6, ?_, ?_⟩
        · intro _ _
          rfl
        · intro _ h8'
          omega
  · intro cs hne
    simp only [parse_hex_color]
    rw [if_neg hne]

/-- Witness for C10 (amended) at the 2-byte ASCII input `"zz"`: parsing is
total and yields black. -/
theorem c10_amended_witness :
    ∃ al, parse_colour [122, 122] none = some (0, 0, 0, al) :=
  (c10_amended [122, 122] none).2.1 (by decide)

/-! ## C1 — the degenerate `radius ≤ 0` path -/

/-- A config with `radius = 0`, `left = 1` and zero alpha-relevant colour,
exhibiting the counterexample to the "fully transparent exactly on the inner
rectangle" phrasing. -/
def cexCfg : MergedConfig :=
  ⟨0, 1, 0, 0, 0, [], none, none, none, none, none⟩

/-- C1 counterexample: with base alpha `0`, the premultiplied base colour is
itself `[0, 0, 0, 0]`, so on a `2×1` buffer with `left = 1` the pixel
`(0, 0)` — outside the claimed region `x ∈ [left, width-right)` — is also
fully transparent: transparency does not hold *exactly* on that region. -/
theorem c1_counterexample :
    draw_snug_pixel 2 1 0 0 0 0 cexCfg 0 0 = some Pixel.transparent ∧
    ¬ in_cut 2 1 cexCfg.left cexCfg.right cexCfg.top cexCfg.bottom 0 0 := by
  constructor
  · simp only [draw_snug_pixel]
    rw [if_pos (by decide)]
    simp [deg_pixel, in_cut, premul_pixel, premul_chan, Pixel.transparent]
  · decide

/-- C1 (amended): for every config with `radius ≤ 0`, every pixel of the cut
rectangle `x ∈ [left, width-right)`, `y ∈ [top, height-bottom)` is written
fully transparent and every other pixel equals the solid premultiplied base
colour; when the base alpha is non-zero this transparency holds *exactly* on
the cut rectangle; and the shadow configuration is never evaluated in this
path — the output is independent of all four shadow fields, even with the
shadow enabled. -/
theorem c1_amended (w h : ℤ) (r g b a : ℕ) (cfg : MergedConfig)
    (hrad : cfg.radius ≤ 0) :
    (∀ x y, in_cut w h cfg.left cfg.right cfg.top cfg.bottom x y →
      draw_snug_pixel w h r g b a cfg x y = some Pixel.transparent) ∧
    (∀ x y, ¬ in_cut w h cfg.left cfg.right cfg.top cfg.bottom x y →
      draw_snug_pixel w h r g b a cfg x y = some (premul_pixel r g b a)) ∧
    (a ≠ 0 → ∀ x y,
      (draw_snug_pixel w h r g b a cfg x y = some Pixel.transparent ↔
        in_cut w h cfg.left cfg.right cfg.top cfg.bottom x y)) ∧
    (∀ se sc so sb x y,
      draw_snug_pixel w h r g b a
        ⟨cfg.radius, cfg.left, cfg.right, cfg.top, cfg.bottom, cfg.color,
         cfg.opacity, se, sc, so, sb⟩ x y =
      draw_snug_pixel w h r g b a cfg x y) := by
  have hkey : ∀ x y, draw_snug_pixel w h r g b a cfg x y =
      some (deg_pixel w h (premul_pixel r g b a) cfg.left cfg.right
        cfg.top cfg.bottom x y) := by
    intro x y
    simp only [draw_snug_pixel]
    rw [if_pos hrad]
  refine ⟨?_, ?_, ?_, ?_⟩
  · intro x y hin
    rw [hkey, deg_pixel, if_pos hin]
  · intro x y hout
    rw [hkey, deg_pixel, if_neg hout]
  · intro ha x y
    rw [hkey]
    constructor
    · intro hEq
      by_contra hnot
      rw [deg_pixel, if_neg hnot] at hEq
      have hbg := Option.some.inj hEq
      have : a = 0 := congrArg Pixel.a hbg
      exact ha this
    · intro hin
      rw [deg_pixel, if_pos hin]
  · intro se sc so sb x y
    rw [hkey]
    simp only [draw_snug_pixel]
    rw [if_pos hrad]

/-- Witness for C1 (amended) on a `2×1` buffer with full alpha. -/
theorem c1_amended_witness :
    draw_snug_pixel 2 1 0 0 0 255 cexCfg 1 0 = some Pixel.transparent ∧
    draw_snug_pixel 2 1 0 0 0 255 cexCfg 0 0 = some (premul_pixel 0 0 0 255) :=
  ⟨(c1_amended 2 1 0 0 0 255 cexCfg (by decide)).1 1 0 (by decide),
   (c1_amended 2 1 0 0 0 255 cexCfg (by decide)).2.1 0 0 (by decide)⟩

/-! ## C4 — rasterizer determinism -/

lemma mapOpt_length {α β : Type} (f : α → Option β) :
    ∀ (l : List α) (out : List β), mapOpt f l = some out → out.length = l.length := by
  intro l
  induction l with
  | nil =>
    intro out hout
    injection hout with hout
    subst hout
    rfl
  | cons x l ih =>
    intro out hout
    revert hout
    cases hfa : f x with
    | none => intro hout; simp [mapOpt, hfa] at hout
    | some y =>
      cases hml : mapOpt f l with
      | none => intro hout; simp [mapOpt, hfa, hml] at hout
      | some ys =>
        intro hout
        simp only [mapOpt, hfa, hml] at hout
        injection hout with hout
        subst hout
        simp [ih ys hml]

/-- C4: the rasterizer is deterministic — with identical dimensions, colour
components and config, and buffers of the caller's size `width*height*4`, the
resulting byte sequences are identical whatever the two buffers previously
held; and the output stays within the caller-supplied buffer (the result has
exactly the input's length). -/
theorem c4_deterministic (c1 c2 : List ℕ) (w h : ℤ) (r g b a : ℕ)
    (cfg : MergedConfig) (h1 : c1.length = (4 * w * h).toNat)
    (h2 : c2.length = (4 * w * h).toNat) :
    draw_snug c1 w h r g b a cfg = draw_snug c2 w h r g b a cfg ∧
    ∀ out, draw_snug c1 w h r g b a cfg = some out → out.length = c1.length := by
  constructor
  · rw [draw_snug, draw_snug, h1, h2]
  · intro out hout
    rw [draw_snug] at hout
    have := mapOpt_length _ _ _ hout
    simpa using this

/-- Witness for C4: two different 4-byte buffers yield the same output on a
`1×1` surface. -/
theorem c4_deterministic_witness :
    draw_snug [0, 0, 0, 0] 1 1 10 20 30 255 cexCfg =
      draw_snug [9, 9, 9, 9] 1 1 10 20 30 255 cexCfg :=
  (c4_deterministic [0, 0, 0, 0] [9, 9, 9, 9] 1 1 10 20 30 255 cexCfg
    (by decide) (by decide)).1


/-! ## C3 — the shadow blur radius and falloff shape -/

lemma clampR_mono {x y lo hi : ℝ} (h : x ≤ y) : clampR x lo hi ≤ clampR y lo hi :=
  max_le_max le_rfl (min_le_min h le_rfl)

lemma clampR_nonneg (x hi : ℝ) : 0 ≤ clampR x 0 hi := le_max_left 0 _

lemma clampR_le_one (x : ℝ) : clampR x 0 1 ≤ 1 :=
  max_le zero_le_one (min_le_right x 1)

lemma shadow_falloff_nonneg (d R : ℝ) : 0 ≤ shadow_falloff d R := by
  simp only [shadow_falloff]
  split
  · norm_num
  · split
    · norm_num
    · exact clampR_nonneg _ _

lemma shadow_falloff_le_one (d R : ℝ) : shadow_falloff d R ≤ 1 := by
  simp only [shadow_falloff]
  split
  · norm_num
  · split
    · norm_num
    · exact clampR_le_one _

lemma shadow_falloff_at_zero (R : ℝ) : shadow_falloff 0 R = 1 := by
  simp only [shadow_falloff]
  rw [if_pos le_rfl]

lemma shadow_falloff_far {d R : ℝ} (hR : 0 < R) (h : R ≤ d) :
    shadow_falloff d R = 0 := by
  simp only [shadow_falloff]
  rw [if_neg (by linarith), if_pos h]

lemma cubic_term_mono {t1 t2 : ℝ} (h0 : 0 ≤ t1) (h12 : t1 ≤ t2) (h1 : t2 ≤ 1) :
    3 * t1 * t1 - 2 * t1 * t1 * t1 ≤ 3 * t2 * t2 - 2 * t2 * t2 * t2 := by
  have h1' : t1 ≤ 1 := le_trans h12 h1
  have h02 : (0 : ℝ) ≤ t2 := le_trans h0 h12
  have hb : 0 ≤ t1 * (1 - t1) + t2 * (1 - t2) + (t1 + t2) * (2 - t1 - t2) := by
    have hx := mul_nonneg h0 (sub_nonneg.2 h1')
    have hy := mul_nonneg h02 (sub_nonneg.2 h1)
    have hz := mul_nonneg (add_nonneg h0 h02)
      (by linarith : (0 : ℝ) ≤ 2 - t1 - t2)
    linarith
  have hprod := mul_nonneg (sub_nonneg.2 h12) hb
  nlinarith [hprod]

lemma shadow_falloff_antitone {R d1 d2 : ℝ} (hR : 0 < R) (h0 : 0 ≤ d1)
    (h12 : d1 ≤ d2) : shadow_falloff d2 R ≤ shadow_falloff d1 R := by
  rcases eq_or_lt_of_le h0 with h0' | h0'
  · have h1 : shadow_falloff d1 R = 1 := by
      simp only [shadow_falloff]
      rw [if_pos (le_of_eq h0'.symm)]
    rw [h1]
    exact shadow_falloff_le_one d2 R
  · by_cases hd2R : R ≤ d2
    · rw [shadow_falloff_far hR hd2R]
      exact shadow_falloff_nonneg d1 R
    · push_neg at hd2R
      have hd1R : d1 < R := lt_of_le_of_lt h12 hd2R
      simp only [shadow_falloff]
      rw [if_neg (show ¬d2 ≤ 0 by linarith), if_neg (not_le.2 hd2R),
        if_neg (show ¬d1 ≤ 0 by linarith), if_neg (not_le.2 hd1R)]
      apply clampR_mono
      have ht0 : 0 ≤ d1 / R := div_nonneg (le_of_lt h0') (le_of_lt hR)
      have ht12 : d1 / R ≤ d2 / R := (div_le_div_iff_of_pos_right hR).mpr h12
      have ht1 : d2 / R ≤ 1 := by
        rw [div_le_one hR]
        exact le_of_lt hd2R
      have hc := cubic_term_mono ht0 ht12 ht1
      have he : Real.exp (-3 * (d2 / R)) ≤ Real.exp (-3 * (d1 / R)) :=
        Real.exp_le_exp.mpr (by linarith)
      nlinarith [hc, he]

lemma shadow_blur_radius_pos (b : Option ℝ) : 0 < shadow_blur_radius b := by
  simp only [shadow_blur_radius]
  have h0 : 0 ≤ clampR (b.getD 0.5) 0 1 := clampR_nonneg _ _
  have h14 := mul_nonneg h0 (by norm_num : (0 : ℝ) ≤ 14)
  linarith

/-- C3: `draw_snug` maps the blur input `b` to the pixel radius
`R = 1 + 14 * clamp(b, 0, 1)`; the shadow falloff is non-increasing in
`inner_dist` over `[0, R]`, equals `1` at `inner_dist = 0` (so the written
shadow alpha there is exactly the clamped shadow opacity), and is exactly
`0` for every `inner_dist ≥ R`. -/
theorem c3_falloff_shape (bv d1 d2 dBig op : ℝ)
    (h0 : 0 ≤ d1) (h12 : d1 ≤ d2) (h2R : d2 ≤ shadow_blur_radius (some bv))
    (hbig : shadow_blur_radius (some bv) ≤ dBig) :
    shadow_blur_radius (some bv) = 1 + 14 * clampR bv 0 1 ∧
    shadow_falloff d2 (shadow_blur_radius (some bv)) ≤
      shadow_falloff d1 (shadow_blur_radius (some bv)) ∧
    shadow_falloff 0 (shadow_blur_radius (some bv)) = 1 ∧
    shadow_falloff dBig (shadow_blur_radius (some bv)) = 0 ∧
    min (clampR op 0 1 * shadow_falloff 0 (shadow_blur_radius (some bv))) 1 =
      clampR op 0 1 := by
  refine ⟨?_, ?_, ?_, ?_, ?_⟩
  · simp only [shadow_blur_radius, Option.getD]
    ring
  · exact shadow_falloff_antitone (shadow_blur_radius_pos _) h0 h12
  · exact shadow_falloff_at_zero _
  · exact shadow_falloff_far (shadow_blur_radius_pos _) hbig
  · rw [shadow_falloff_at_zero, mul_one]
    exact min_eq_left (clampR_le_one op)

/-- Witness for C3 at blur `0.5` (radius 8) and distances 1 ≤ 2 ≤ 8 ≤ 20. -/
theorem c3_falloff_shape_witness :
    shadow_falloff 2 (shadow_blur_radius (some 0.5)) ≤
      shadow_falloff 1 (shadow_blur_radius (some 0.5)) ∧
    shadow_falloff 0 (shadow_blur_radius (some 0.5)) = 1 ∧
    shadow_falloff 20 (shadow_blur_radius (some 0.5)) = 0 := by
  have hb : shadow_blur_radius (some (0.5 : ℝ)) = 8 := by
    simp only [shadow_blur_radius, Option.getD, clampR]
    rw [min_eq_left (by norm_num), max_eq_right (by norm_num)]
    norm_num
  have h := c3_falloff_shape 0.5 1 2 20 0.3 (by norm_num) (by norm_num)
    (by rw [hb]; norm_num) (by rw [hb]; norm_num)
  exact ⟨h.2.1, h.2.2.1, h.2.2.2.1⟩


/-! ## C2 — the `radius > 0`, shadow-disabled classification -/

lemma round_mono_real {x y : ℝ} (h : x ≤ y) : round x ≤ round y := by
  rw [round_eq, round_eq]
  exact Int.floor_mono (by linarith)

lemma r2b_mono {x y : ℝ} (h : x ≤ y) : r2b x ≤ r2b y := by
  unfold r2b
  exact min_le_min (Int.toNat_le_toNat (round_mono_real h)) le_rfl

lemma draw_snug_pixel_rounded (w h : ℤ) (r g b a : ℕ) (cfg : MergedConfig)
    (sc : ℕ × ℕ × ℕ) (x y : ℤ) (hrad : 0 < cfg.radius)
    (hsc : parse_hex_color (cfg.shadow_color.getD hexZero6) = some sc) :
    draw_snug_pixel w h r g b a cfg x y =
      some (rounded_pixel w h (premul_pixel r g b a) a cfg sc x y) := by
  simp only [draw_snug_pixel]
  rw [if_neg (not_le.2 hrad), hsc]

lemma rounded_pixel_interior (w h : ℤ) (bg : Pixel) (a : ℕ) (cfg : MergedConfig)
    (sc : ℕ × ℕ × ℕ) (x y : ℤ) (hsh : cfg.shadow_enabled.getD false = false)
    (hd : drr_at w h cfg x y ≤ -1) :
    rounded_pixel w h bg a cfg sc x y = Pixel.transparent := by
  simp only [rounded_pixel]
  rw [if_pos hd, hsh]
  simp

lemma rounded_pixel_border (w h : ℤ) (bg : Pixel) (a : ℕ) (cfg : MergedConfig)
    (sc : ℕ × ℕ × ℕ) (x y : ℤ) (hd : 1 ≤ drr_at w h cfg x y) :
    rounded_pixel w h bg a cfg sc x y = bg := by
  simp only [rounded_pixel]
  rw [if_neg (by linarith), if_neg (not_lt.2 hd)]

lemma rounded_pixel_band (w h : ℤ) (bg : Pixel) (a : ℕ) (cfg : MergedConfig)
    (sc : ℕ × ℕ × ℕ) (x y : ℤ) (hsh : cfg.shadow_enabled.getD false = false)
    (hd1 : -1 < drr_at w h cfg x y) (hd2 : drr_at w h cfg x y < 1) :
    rounded_pixel w h bg a cfg sc x y =
      band_noshadow_pixel bg a (drr_at w h cfg x y) := by
  simp only [rounded_pixel]
  rw [if_neg (by linarith), if_pos hd2, if_neg ?_]
  rintro ⟨hc, _⟩
  rw [hsh] at hc
  exact absurd hc (by simp)

lemma band_alpha_mono (bg1 bg2 : Pixel) (a : ℕ) {d1 d2 : ℝ} (h : d1 ≤ d2) :
    (band_noshadow_pixel bg1 a d1).a ≤ (band_noshadow_pixel bg2 a d2).a := by
  simp only [band_noshadow_pixel]
  have hmono : (1 - (1 - clampR ((d1 + 1) / (2 * 1)) 0 1)) * ((a : ℝ) / 255) ≤
      (1 - (1 - clampR ((d2 + 1) / (2 * 1)) 0 1)) * ((a : ℝ) / 255) := by
    apply mul_le_mul_of_nonneg_right
    · have hcl : clampR ((d1 + 1) / (2 * 1)) 0 1 ≤
          clampR ((d2 + 1) / (2 * 1)) 0 1 :=
        clampR_mono (by linarith)
      linarith [hcl]
    · positivity
  by_cases h1 : (1 - (1 - clampR ((d1 + 1) / (2 * 1)) 0 1)) * ((a : ℝ) / 255) ≤ 0
  · rw [if_pos h1]
    exact Nat.zero_le _
  · rw [if_neg h1, if_neg (fun hc => h1 (le_trans hmono hc))]
    exact r2b_mono (by nlinarith [hmono])

/-- C2: for every config with `radius > 0` and the shadow disabled (with a
well-formed shadow colour string, per the data-model invariant), every pixel
whose rounded-box signed distance satisfies `drr ≤ -1` is written fully
transparent, every pixel with `drr ≥ 1` keeps the solid premultiplied base
colour, and inside the antialiased band `-1 < drr < 1` the written alpha
byte is monotonically non-decreasing in `drr`. -/
theorem c2_band_classification (w h : ℤ) (r g b a : ℕ) (cfg : MergedConfig)
    (sc : ℕ × ℕ × ℕ) (hrad : 0 < cfg.radius)
    (hsh : cfg.shadow_enabled.getD false = false)
    (hsc : parse_hex_color (cfg.shadow_color.getD hexZero6) = some sc) :
    (∀ x y, drr_at w h cfg x y ≤ -1 →
      draw_snug_pixel w h r g b a cfg x y = some Pixel.transparent) ∧
    (∀ x y, 1 ≤ drr_at w h cfg x y →
      draw_snug_pixel w h r g b a cfg x y = some (premul_pixel r g b a)) ∧
    (∀ x1 y1 x2 y2, -1 < drr_at w h cfg x1 y1 →
      drr_at w h cfg x1 y1 ≤ drr_at w h cfg x2 y2 →
      drr_at w h cfg x2 y2 < 1 →
      alphaOf (draw_snug_pixel w h r g b a cfg x1 y1) ≤
        alphaOf (draw_snug_pixel w h r g b a cfg x2 y2)) := by
  refine ⟨?_, ?_, ?_⟩
  · intro x y hd
    rw [draw_snug_pixel_rounded w h r g b a cfg sc x y hrad hsc,
      rounded_pixel_interior w h _ a cfg sc x y hsh hd]
  · intro x y hd
    rw [draw_snug_pixel_rounded w h r g b a cfg sc x y hrad hsc,
      rounded_pixel_border w h _ a cfg sc x y hd]
  · intro x1 y1 x2 y2 h1 h12 h2
    rw [draw_snug_pixel_rounded w h r g b a cfg sc x1 y1 hrad hsc,
      draw_snug_pixel_rounded w h r g b a cfg sc x2 y2 hrad hsc,
      rounded_pixel_band w h _ a cfg sc x1 y1 hsh h1 (lt_of_le_of_lt h12 h2),
      rounded_pixel_band w h _ a cfg sc x2 y2 hsh (lt_of_lt_of_le h1 h12) h2]
    simp only [alphaOf]
    exact band_alpha_mono _ _ a h12


lemma sqrt_four_eq : Real.sqrt 4 = 2 := by
  rw [show (4 : ℝ) = 2 ^ 2 by norm_num, Real.sqrt_sq (by norm_num : (0:ℝ) ≤ 2)]

lemma sqrt_nine_eq : Real.sqrt 9 = 3 := by
  rw [show (9 : ℝ) = 3 ^ 2 by norm_num, Real.sqrt_sq (by norm_num : (0:ℝ) ≤ 3)]

lemma sqrt_twentyfive_eq : Real.sqrt 25 = 5 := by
  rw [show (25 : ℝ) = 5 ^ 2 by norm_num, Real.sqrt_sq (by norm_num : (0:ℝ) ≤ 5)]

lemma sqrt_fortynine_eq : Real.sqrt 49 = 7 := by
  rw [show (49 : ℝ) = 7 ^ 2 by norm_num, Real.sqrt_sq (by norm_num : (0:ℝ) ≤ 7)]

lemma drrW_interior : drr_at 20 20 cfgW 9 9 = -2 := by
  simp only [drr_at, cfgW]
  norm_num [max_def]

lemma drrW_band_inner : drr_at 20 20 cfgW 9 2 = -(1/2) := by
  simp only [drr_at, cfgW]
  norm_num [max_def]
  rw [sqrt_nine_eq, sqrt_four_eq]
  norm_num

lemma drrW_band_outer : drr_at 20 20 cfgW 9 1 = 1/2 := by
  simp only [drr_at, cfgW]
  norm_num [max_def]
  rw [sqrt_twentyfive_eq, sqrt_four_eq]
  norm_num

lemma drrW_border : drr_at 20 20 cfgW 9 0 = 3/2 := by
  simp only [drr_at, cfgW]
  norm_num [max_def]
  rw [sqrt_fortynine_eq, sqrt_four_eq]
  norm_num

/-- Witness for C2 on a 20×20 surface (radius 2, borders 4): the pixel
`(9,9)` is interior (`drr = -2`), `(9,0)` is border (`drr = 1.5`), and the
band pixels `(9,2)` (`drr = -0.5`) and `(9,1)` (`drr = 0.5`) have
non-decreasing alpha. -/
theorem c2_band_classification_witness :
    draw_snug_pixel 20 20 0 0 0 255 cfgW 9 9 = some Pixel.transparent ∧
    draw_snug_pixel 20 20 0 0 0 255 cfgW 9 0 = some (premul_pixel 0 0 0 255) ∧
    alphaOf (draw_snug_pixel 20 20 0 0 0 255 cfgW 9 2) ≤
      alphaOf (draw_snug_pixel 20 20 0 0 0 255 cfgW 9 1) := by
  have h := c2_band_classification 20 20 0 0 0 255 cfgW (0, 0, 0)
    (by decide) rfl (by decide)
  refine ⟨h.1 9 9 ?_, h.2.1 9 0 ?_, h.2.2 9 2 9 1 ?_ ?_ ?_⟩
  · rw [drrW_interior]; norm_num
  · rw [drrW_border]; norm_num
  · rw [drrW_band_inner]; norm_num
  · rw [drrW_band_inner, drrW_band_outer]; norm_num
  · rw [drrW_band_outer]; norm_num

end Snug
